import Mathlib

/-!
Verification development for the entity/calendar-event extraction pipeline
(`ai/services/entity_extraction.py` and `ai/services/ner_service.py`).

Texts are shallowly embedded as `List Char`.  The regex-based recognizers are
embedded through a small backtracking matcher covering exactly the regex
features the source patterns use (character classes, literals, alternation,
option, counted repetition of single-character classes, and the word
boundary `\b`), with Python `re.finditer` scanning semantics.  External
libraries (spaCy, HuggingFace, `dateutil`, `email_validator`, `phonenumbers`,
`datetime.now`) are modelled as explicit capability parameters.
-/

set_option maxRecDepth 10000

/-- Python strings are modelled as lists of characters. -/
abbrev Str := List Char

/-- Characters counted as whitespace by Python `str.strip` / `str.split` /
regex `\s` (ASCII fragment, which is all the source texts use). -/
def isPySpace (c : Char) : Bool :=
  c = ' ' || c = '\t' || c = '\n' || c = '\r' || c = Char.ofNat 11 || c = Char.ofNat 12

/-- Python `str.lower` (ASCII). -/
def pyLower (s : Str) : Str := s.map Char.toLower

/-- Python `str.strip()`: remove leading and trailing whitespace. -/
def pyStrip (s : Str) : Str :=
  ((s.dropWhile isPySpace).reverse.dropWhile isPySpace).reverse

/-- Python substring test `needle in hay`. -/
def containsSub (needle hay : Str) : Bool :=
  (List.range (hay.length + 1)).any fun i => needle.isPrefixOf (hay.drop i)

/-- Index of the first occurrence of `needle` in `hay`, if any. -/
def findSub (needle hay : Str) : Option Nat :=
  (List.range (hay.length + 1)).find? fun i => needle.isPrefixOf (hay.drop i)

/-- Python slice `text[a:b]` for `a ≤ b` (both already clamped at 0). -/
def pySlice (t : Str) (a b : Nat) : Str := (t.drop a).take (b - a)

/-- Python `str.split(sep)` for a single-character separator. -/
def pySplitChar (sep : Char) : Str → List Str
  | [] => [[]]
  | c :: cs =>
    if c = sep then [] :: pySplitChar sep cs
    else
      match pySplitChar sep cs with
      | h :: t => (c :: h) :: t
      | [] => [[c]]

/-- Auxiliary for `pySplitSub`, fuelled by the length of the string. -/
def pySplitSubAux (sep : Str) : Nat → Str → List Str
  | 0, s => [s]
  | fuel + 1, s =>
    match findSub sep s with
    | none => [s]
    | some i => s.take i :: pySplitSubAux sep fuel (s.drop (i + sep.length))

/-- Python `str.split(sep)` for a non-empty separator string. -/
def pySplitSub (sep s : Str) : List Str := pySplitSubAux sep (s.length + 1) s

/-- Python `len(text.split())`: number of maximal non-whitespace runs. -/
def pyWordCountAux : Bool → Str → Nat
  | _, [] => 0
  | inWord, c :: cs =>
    if isPySpace c then pyWordCountAux false cs
    else (if inWord then 0 else 1) + pyWordCountAux true cs

def pyWordCount (s : Str) : Nat := pyWordCountAux false s

/-- Python `str.title()` for a single lowercase word: capitalize the head. -/
def pyCapitalize : Str → Str
  | [] => []
  | c :: cs => c.toUpper :: cs

/-! ## A small regex engine

Just enough of Python `re` for the patterns in the source: every quantifier
in those patterns ranges over a single-character class, so greedy matching
with backtracking can enumerate repetition counts directly. -/

/-- Regex abstract syntax.  `rep p lo hi` is `p{lo,hi}` (`hi = none` meaning
unbounded) over a single-character class `p`; `wb` is `\b`. -/
inductive RE where
  | eps : RE
  | chr : (Char → Bool) → RE
  | seq : RE → RE → RE
  | alt : RE → RE → RE
  | opt : RE → RE
  | rep : (Char → Bool) → Nat → Option Nat → RE
  | wb : RE

/-- Length of the maximal run of characters satisfying `p` at the front. -/
def runLen (p : Char → Bool) : Str → Nat
  | [] => 0
  | c :: cs => if p c then runLen p cs + 1 else 0

/-- Regex word character (`\w`, ASCII fragment). -/
def isWordCh (c : Char) : Bool := c.isAlphanum || c = '_'

def wordO : Option Char → Bool
  | none => false
  | some c => isWordCh c

/-- Greedy repetition: try consuming `j` characters (all known to satisfy the
class), backtracking down to `lo` until the continuation succeeds.  The
continuation receives the previous character, the rest of the input and the
current position. -/
def repGo (p : Char → Bool) (lo : Nat) (pv : Option Char) (cs : Str) (i : Nat)
    (k : Option Char → Str → Nat → Option α) : Nat → Option α
  | 0 => if lo = 0 then k pv cs i else none
  | j + 1 =>
    match k (some (cs.getD j ' ')) (cs.drop (j + 1)) (i + j + 1) with
    | some r => some r
    | none => if lo ≤ j then repGo p lo pv cs i k j else none

/-- Backtracking matcher in continuation-passing style.  `pv` is the
character just before the current position (for `\b`), `i` the current
position in the original text. -/
def reMatch : RE → Option Char → Str → Nat →
    (Option Char → Str → Nat → Option α) → Option α
  | .eps, pv, cs, i, k => k pv cs i
  | .chr p, _, cs, i, k =>
    match cs with
    | [] => none
    | c :: rest => if p c then k (some c) rest (i + 1) else none
  | .seq a b, pv, cs, i, k =>
    reMatch a pv cs i fun pv2 cs2 i2 => reMatch b pv2 cs2 i2 k
  | .alt a b, pv, cs, i, k =>
    match reMatch a pv cs i k with
    | some r => some r
    | none => reMatch b pv cs i k
  | .opt a, pv, cs, i, k =>
    match reMatch a pv cs i k with
    | some r => some r
    | none => k pv cs i
  | .rep p lo hi, pv, cs, i, k =>
    let m := runLen p cs
    let top := match hi with | none => m | some h => min m h
    if lo ≤ top then repGo p lo pv cs i k top else none
  | .wb, pv, cs, i, k =>
    if wordO pv != wordO cs.head? then k pv cs i else none

/-- Character preceding position `pos` in `t`, if any. -/
def prevCharAt (t : Str) (pos : Nat) : Option Char :=
  if pos = 0 then none else (t.drop (pos - 1)).head?

/-- Try to match `r` anchored at position `pos`; returns the end position. -/
def matchAt (r : RE) (t : Str) (pos : Nat) : Option Nat :=
  reMatch r (prevCharAt t pos) (t.drop pos) pos fun _ _ i => some i

/-- `re.finditer` scanning: leftmost matches, resuming after each match. -/
def findIterAux (r : RE) (t : Str) : Nat → Nat → List (Nat × Nat)
  | 0, _ => []
  | fuel + 1, pos =>
    if pos > t.length then []
    else
      match matchAt r t pos with
      | some e =>
        if e > pos then (pos, e) :: findIterAux r t fuel e
        else (pos, e) :: findIterAux r t fuel (pos + 1)
      | none => findIterAux r t fuel (pos + 1)

/-- All matches of `r` in `t` as `(start, end)` spans, Python
`re.finditer` order. -/
def findIter (r : RE) (t : Str) : List (Nat × Nat) :=
  findIterAux r t (t.length + 1) 0

/-- Sequence a list of regexes. -/
def reSeqL : List RE → RE
  | [] => .eps
  | [r] => r
  | r :: rest => .seq r (reSeqL rest)

/-- Alternation of a list of regexes, tried left to right. -/
def reAltL : List RE → RE
  | [] => .chr fun _ => false
  | [r] => r
  | r :: rest => .alt r (reAltL rest)

/-- Case-sensitive literal. -/
def reLit (s : String) : RE := reSeqL (s.data.map fun c => .chr (· = c))

/-- Case-insensitive literal (pattern written in lowercase), modelling
`re.IGNORECASE`. -/
def reLitCI (s : String) : RE :=
  reSeqL (s.data.map fun c => .chr (·.toLower = c))

-- Sanity checks for the engine (spans are half-open, 0-based).
example : findIter (reLit ("ab")) ("xabab").data = [(1, 3), (3, 5)] := by decide
example : pySplitChar '.' ("a.b.").data = [['a'], ['b'], []] := by decide
example : pyStrip ("  hi ").data = ['h', 'i'] := by decide
example : containsSub ("bc").data ("abcd").data = true := by decide
example : pySplitSub ("meeting").data ("ameetingb").data = [['a'], ['b']] := by decide
example : pyWordCount ("  a bb  ").data = 2 := by decide

/-! ## Dates and times

`datetime` values are modelled as a civil date plus an opaque time-of-day
(minutes are never inspected by the pipeline, only carried).  `weekday` is
Python `datetime.weekday()` (Monday = 0), computed by Sakamoto's method. -/

structure PyDT where
  year : Int
  month : Int
  day : Int
  tod : Int
deriving DecidableEq, Repr

def isLeapYear (y : Int) : Bool :=
  (y % 4 = 0 && y % 100 != 0) || y % 400 = 0

def daysInMonth (y m : Int) : Int :=
  if m = 2 then (if isLeapYear y then 29 else 28)
  else if m = 4 || m = 6 || m = 9 || m = 11 then 30
  else 31

/-- `t + timedelta(days=1)`. -/
def nextDay (t : PyDT) : PyDT :=
  if t.day + 1 ≤ daysInMonth t.year t.month then { t with day := t.day + 1 }
  else if t.month + 1 ≤ 12 then { t with month := t.month + 1, day := 1 }
  else { t with year := t.year + 1, month := 1, day := 1 }

/-- `t - timedelta(days=1)`. -/
def prevDay (t : PyDT) : PyDT :=
  if 1 ≤ t.day - 1 then { t with day := t.day - 1 }
  else if 1 ≤ t.month - 1 then
    { t with month := t.month - 1, day := daysInMonth t.year (t.month - 1) }
  else { t with year := t.year - 1, month := 12, day := 31 }

/-- `t + timedelta(days=n)` for `n ≥ 0`. -/
def addDays (t : PyDT) : Nat → PyDT
  | 0 => t
  | n + 1 => nextDay (addDays t n)

/-- `t + relativedelta(months=1)`: bump the month, clamping the day. -/
def addMonths1 (t : PyDT) : PyDT :=
  let y := if t.month + 1 ≤ 12 then t.year else t.year + 1
  let m := if t.month + 1 ≤ 12 then t.month + 1 else 1
  { t with year := y, month := m, day := min t.day (daysInMonth y m) }

/-- `t + relativedelta(years=1)`: bump the year, clamping the day. -/
def addYears1 (t : PyDT) : PyDT :=
  { t with year := t.year + 1,
           day := min t.day (daysInMonth (t.year + 1) t.month) }

/-- Sakamoto month offsets. -/
def sakamotoOffset (m : Int) : Int :=
  if m = 1 then 0 else if m = 2 then 3 else if m = 3 then 2
  else if m = 4 then 5 else if m = 5 then 0 else if m = 6 then 3
  else if m = 7 then 5 else if m = 8 then 1 else if m = 9 then 4
  else if m = 10 then 6 else if m = 11 then 2 else 4

/-- Python `datetime.weekday()`: Monday = 0 … Sunday = 6. -/
def pyWeekday (t : PyDT) : Int :=
  let y := if t.month < 3 then t.year - 1 else t.year
  (y + y / 4 - y / 100 + y / 400 + sakamotoOffset t.month + t.day + 6) % 7

/-- A well-formed civil date. -/
def PyDT.ValidDate (t : PyDT) : Prop :=
  1 ≤ t.month ∧ t.month ≤ 12 ∧ 1 ≤ t.day ∧ t.day ≤ daysInMonth t.year t.month

instance (t : PyDT) : Decidable t.ValidDate := by
  unfold PyDT.ValidDate; infer_instance

-- 2026-10-12 is a Monday; 2026-10-18 is a Sunday; 2024-02-29 a Thursday.
example : pyWeekday ⟨2026, 10, 12, 0⟩ = 0 := by decide
example : pyWeekday ⟨2026, 10, 18, 0⟩ = 6 := by decide
example : pyWeekday ⟨2024, 2, 29, 0⟩ = 3 := by decide
example : pyWeekday ⟨2000, 1, 1, 0⟩ = 5 := by decide
example : addDays ⟨2024, 2, 28, 0⟩ 2 = ⟨2024, 3, 1, 0⟩ := by decide
example : addMonths1 ⟨2025, 1, 31, 0⟩ = ⟨2025, 2, 28, 0⟩ := by decide
example : addYears1 ⟨2024, 2, 29, 0⟩ = ⟨2025, 2, 28, 0⟩ := by decide
example : prevDay ⟨2025, 3, 1, 0⟩ = ⟨2025, 2, 28, 0⟩ := by decide

/-! ## Data model -/

/-- Values stored in an entity's `metadata` dict. -/
inductive MetaVal where
  | b : Bool → MetaVal
  | s : Str → MetaVal
  | dt : PyDT → MetaVal
deriving DecidableEq, Repr

/-- `ExtractedEntity` from `entity_extraction.py`. -/
structure ExtractedEntity where
  type : Str
  value : Str
  confidence : Rat
  context : Str
  start_pos : Nat
  end_pos : Nat
  metadata : Option (List (Str × MetaVal)) := none
deriving DecidableEq, Repr

/-- `CalendarEvent` from `entity_extraction.py`. -/
structure CalendarEvent where
  title : Str
  description : Str
  start_time : Option PyDT
  end_time : Option PyDT
  location : Option Str
  attendees : List Str
  confidence : Rat
  source_text : Str
  entities : List ExtractedEntity
deriving DecidableEq, Repr

/-- One raw NER entity dict (spaCy entries have `description` and no
`confidence`; HuggingFace entries the converse), with `stop` standing for
the Python key `"end"`. -/
structure NerEnt where
  text : Str
  label : Str
  start : Nat
  stop : Nat
  source : Str
  description : Option Str := none
  confidence : Option Rat := none
deriving DecidableEq, Repr

/-- Values of the dict returned by `NERService.extract_entities`. -/
inductive NerVal where
  | ents : List NerEnt → NerVal
  | counts : List (Str × Nat) → NerVal
  | num : Nat → NerVal
deriving DecidableEq, Repr

/-- The NER result dict, as an insertion-ordered association list. -/
abbrev NerAssoc := List (Str × NerVal)

/-- Python `dict.get` on the NER result (key lookup, `None` if absent). -/
def lookupNV (a : NerAssoc) (k : Str) : Option NerVal :=
  (a.find? fun p => p.1 = k).map (·.2)

/-- Outcome of `phonenumbers.parse` + `is_valid_number` + `format_number`. -/
inductive PhoneOutcome where
  | valid : Str → PhoneOutcome
  | notValid : PhoneOutcome
  | parseFail : PhoneOutcome

/-- External capabilities of the pipeline: current time, the third-party
parsing/validation libraries, and the two NER model backends (which may
raise, modelled by `Except`). -/
structure Caps where
  now : PyDT
  fuzzyDate : Str → Option PyDT
  fuzzyTime : Str → Option Int
  validateEmail : Str → Option Str
  phoneCheck : Str → PhoneOutcome
  spacyLoaded : Bool
  hfLoaded : Bool
  spacyEnts : Str → Except Str (List NerEnt)
  hfEnts : Str → Except Str (List NerEnt)

/-! ## The source regex patterns -/

def isDigitCh (c : Char) : Bool := c.isDigit

/-- `\d{lo,hi}`. -/
def reD (lo hi : Nat) : RE := .rep isDigitCh lo (some hi)

/-- `\s+` / `\s*`. -/
def reSpace1 : RE := .rep isPySpace 1 none
def reSpace0 : RE := .rep isPySpace 0 none

def reCh (c : Char) : RE := .chr (· = c)

/-- `(?:am|pm|AM|PM)` under `re.IGNORECASE`. -/
def reAmPm : RE :=
  reAltL [reLitCI ("am"), reLitCI ("pm"), reLitCI ("am"), reLitCI ("pm")]

def weekdayLits : List String :=
  ["monday", "tuesday", "wednesday", "thursday", "friday", "saturday", "sunday"]

def monthLits : List String :=
  ["january", "february", "march", "april", "may", "june", "july", "august",
   "september", "october", "november", "december"]

/-- `self.date_patterns`, in source order (all compiled with
`re.IGNORECASE`). -/
def datePatterns : List RE :=
  [ reSeqL [.wb, reAltL (weekdayLits.map reLitCI), .wb],
    reSeqL [.wb, reAltL (monthLits.map reLitCI), reSpace1, reD 1 2,
            .opt (reAltL [reLitCI ("st"), reLitCI ("nd"), reLitCI ("rd"),
                          reLitCI ("th")]), .wb],
    reSeqL [.wb, reD 1 2, reCh '/', reD 1 2, reCh '/', reD 2 4, .wb],
    reSeqL [.wb, reD 1 2, reCh '-', reD 1 2, reCh '-', reD 2 4, .wb],
    reSeqL [.wb, reLitCI ("tomorrow"), .wb],
    reSeqL [.wb, reLitCI ("yesterday"), .wb],
    reSeqL [.wb, reLitCI ("next"), reSpace1,
            reAltL [reLitCI ("week"), reLitCI ("month"), reLitCI ("year")], .wb],
    reSeqL [.wb, reLitCI ("in"), reSpace1, .rep isDigitCh 1 none, reSpace1,
            reAltL [.seq (reLitCI ("day")) (.opt (reLitCI ("s"))),
                    .seq (reLitCI ("week")) (.opt (reLitCI ("s"))),
                    .seq (reLitCI ("month")) (.opt (reLitCI ("s")))], .wb] ]

/-- `self.time_patterns`, in source order (all `re.IGNORECASE`). -/
def timePatterns : List RE :=
  [ reSeqL [.wb, reD 1 2, reCh ':', reD 2 2, reSpace0, .opt reAmPm, .wb],
    reSeqL [.wb, reD 1 2, reSpace0, reAmPm, .wb],
    reSeqL [.wb, reLitCI ("at"), reSpace1, reD 1 2,
            .opt (.seq (reCh ':') (reD 2 2)), reSpace0, .opt reAmPm, .wb],
    reSeqL [.wb, reAltL [reLitCI ("morning"), reLitCI ("afternoon"),
                         reLitCI ("evening"), reLitCI ("night")], .wb],
    reSeqL [.wb, reLitCI ("noon"), .wb],
    reSeqL [.wb, reLitCI ("midnight"), .wb] ]

def emailLocalCh (c : Char) : Bool :=
  c.isAlpha || c.isDigit || c = '.' || c = '_' || c = '%' || c = '+' || c = '-'

def emailDomCh (c : Char) : Bool := c.isAlpha || c.isDigit || c = '.' || c = '-'

/-- The class `[A-Z|a-z]` (the source pattern literally includes `|`). -/
def emailTldCh (c : Char) : Bool := c.isAlpha || c = '|'

/-- `\b[A-Za-z0-9._%+-]+@[A-Za-z0-9.-]+\.[A-Z|a-z]{2,}\b`. -/
def emailPattern : RE :=
  reSeqL [.wb, .rep emailLocalCh 1 none, reCh '@', .rep emailDomCh 1 none,
          reCh '.', .rep emailTldCh 2 none, .wb]

/-- Phone number patterns from `_extract_phone_numbers`, in source order. -/
def phonePatterns : List RE :=
  [ reSeqL [.wb, reD 3 3, reCh '-', reD 3 3, reCh '-', reD 4 4, .wb],
    reSeqL [.wb, reCh '(', reD 3 3, reCh ')', reSpace0, reD 3 3, reCh '-',
            reD 4 4, .wb],
    reSeqL [.wb, reD 3 3, reCh '.', reD 3 3, reCh '.', reD 4 4, .wb],
    reSeqL [.wb, reD 10 10, .wb],
    reSeqL [.wb, reCh '+', reCh '1', reSpace0, reD 3 3, reSpace0, reD 3 3,
            reSpace0, reD 4 4, .wb] ]

/-- Characters allowed in a URL body: the negated class
`[^\s<>"{}|\\^`\[\]]`. -/
def urlBodyCh (c : Char) : Bool :=
  !(isPySpace c || c = '<' || c = '>' || c = Char.ofNat 34 || c = Char.ofNat 123 ||
    c = Char.ofNat 125 || c = '|' || c = Char.ofNat 92 || c = '^' ||
    c = Char.ofNat 96 || c = '[' || c = ']')

/-- `https?://[^…]+|www\.[^…]+`. -/
def urlPattern : RE :=
  .alt (reSeqL [reLit ("http"), .opt (reCh 's'), reLit ("://"),
                .rep urlBodyCh 1 none])
       (reSeqL [reLit ("www."), .rep urlBodyCh 1 none])

/-- `self.event_keywords`. -/
def eventKeywords : List Str :=
  [("meeting").data, ("appointment").data, ("call").data, ("conference").data,
   ("lunch").data, ("dinner").data, ("presentation").data, ("interview").data,
   ("workshop").data, ("seminar").data, ("training").data, ("deadline").data,
   ("due").data, ("reminder").data, ("event").data, ("party").data,
   ("celebration").data, ("birthday").data, ("anniversary").data,
   ("vacation").data, ("trip").data, ("flight").data, ("travel").data]

/-- Characters ending an action-item capture: the class `[^.!?]` negated. -/
def actionTailCh (c : Char) : Bool := !(c = '.' || c = '!' || c = '?')

/-- Prefixes of the five action patterns (everything before the capturing
group `([^.!?]+)`), in source order; `don't` is spelled with `\x27`. -/
def actionPrefixes : List RE :=
  [ reSeqL [.wb, reAltL [reLitCI ("need to"), reLitCI ("should"),
                         reLitCI ("must"), reLitCI ("have to"),
                         reLitCI ("remember to"),
                         reLitCI ("don\x27t forget to")], reSpace1],
    reSeqL [.wb, reAltL [reLitCI ("todo"), reLitCI ("to do"), reLitCI ("task"),
                         reLitCI ("action item")], reCh ':', reSpace0],
    reSeqL [.wb, reAltL [reLitCI ("follow up"), reLitCI ("reach out"),
                         reLitCI ("contact"), reLitCI ("call"),
                         reLitCI ("email")], reSpace1],
    reSeqL [.wb, reAltL [reLitCI ("schedule"), reLitCI ("book"),
                         reLitCI ("set up"), reLitCI ("arrange")], reSpace1],
    reSeqL [.wb, reAltL [reLitCI ("review"), reLitCI ("check"),
                         reLitCI ("verify"), reLitCI ("confirm")], reSpace1] ]

/-- Match an action pattern at `pos`: the prefix regex followed by the
greedy capture `([^.!?]+)`; returns `(group-1 start, match end)`. -/
def matchActionAt (pre : RE) (t : Str) (pos : Nat) : Option (Nat × Nat) :=
  reMatch pre (prevCharAt t pos) (t.drop pos) pos fun _ cs2 i2 =>
    let n := runLen actionTailCh cs2
    if n = 0 then none else some (i2, i2 + n)

/-- `re.finditer` for an action pattern: `(start, group-1 start, end)`. -/
def findActionAux (pre : RE) (t : Str) : Nat → Nat → List (Nat × Nat × Nat)
  | 0, _ => []
  | fuel + 1, pos =>
    if pos > t.length then []
    else
      match matchActionAt pre t pos with
      | some (g, e) =>
        if e > pos then (pos, g, e) :: findActionAux pre t fuel e
        else (pos, g, e) :: findActionAux pre t fuel (pos + 1)
      | none => findActionAux pre t fuel (pos + 1)

def findActions (pre : RE) (t : Str) : List (Nat × Nat × Nat) :=
  findActionAux pre t (t.length + 1) 0

/-! ## `EntityExtractionService._parse_date` -/

/-- The `weekdays` list of `_parse_date`, index = `datetime.weekday()`. -/
def weekdayName : Fin 7 → Str
  | 0 => ("monday").data
  | 1 => ("tuesday").data
  | 2 => ("wednesday").data
  | 3 => ("thursday").data
  | 4 => ("friday").data
  | 5 => ("saturday").data
  | 6 => ("sunday").data

/-- The `for i, day in enumerate(weekdays)` loop: first weekday name that is
a substring of the (lowercased) date text. -/
def findWeekdayIdx (ls : Str) : Option (Fin 7) :=
  (List.finRange 7).find? fun i => containsSub (weekdayName i) ls

/-- `_parse_date(date_text)`, with `datetime.now()` passed as `now` and
`dateutil.parser.parse(·, fuzzy=True)` as `fuzzy` (`none` = raised). -/
def parseDate (now : PyDT) (fuzzy : Str → Option PyDT) (dateText : Str) :
    Option PyDT :=
  let ls := pyLower dateText
  if containsSub ("tomorrow").data ls then some (addDays now 1)
  else if containsSub ("yesterday").data ls then some (prevDay now)
  else if containsSub ("next week").data ls then some (addDays now 7)
  else if containsSub ("next month").data ls then some (addMonths1 now)
  else if containsSub ("next year").data ls then some (addYears1 now)
  else
    match findWeekdayIdx ls with
    | some i =>
      let daysAhead : Int := (i : Int) - pyWeekday now
      let daysAhead := if daysAhead ≤ 0 then daysAhead + 7 else daysAhead
      some (addDays now daysAhead.toNat)
    | none => fuzzy dateText

/-! ## Pattern recognizers -/

/-- Context window `text[max(0, s - r):e + r]` (Python slice clamping). -/
def ctxWindow (t : Str) (s e r : Nat) : Str := pySlice t (s - r) (e + r)

/-- `_extract_emails`. -/
def extractEmails (caps : Caps) (t : Str) : List ExtractedEntity :=
  (findIter emailPattern t).map fun se =>
    let m := pySlice t se.1 se.2
    match caps.validateEmail m with
    | some norm =>
      { type := ("EMAIL").data, value := norm, confidence := mkRat 9 10,
        context := ctxWindow t se.1 se.2 30, start_pos := se.1, end_pos := se.2,
        metadata := some [(("validated").data, .b true)] }
    | none =>
      { type := ("EMAIL").data, value := m, confidence := mkRat 5 10,
        context := ctxWindow t se.1 se.2 30, start_pos := se.1, end_pos := se.2,
        metadata := some [(("validated").data, .b false)] }

/-- `_extract_phone_numbers`.  A candidate that parses but is not a valid
number is silently dropped (the source appends nothing in that case). -/
def extractPhones (caps : Caps) (t : Str) : List ExtractedEntity :=
  phonePatterns.flatMap fun p =>
    (findIter p t).filterMap fun se =>
      let phone := pySlice t se.1 se.2
      match caps.phoneCheck phone with
      | .valid formatted =>
        some { type := ("PHONE").data, value := formatted, confidence := mkRat 9 10,
               context := ctxWindow t se.1 se.2 30, start_pos := se.1,
               end_pos := se.2,
               metadata := some [(("validated").data, .b true),
                                 (("original").data, .s phone)] }
      | .notValid => none
      | .parseFail =>
        some { type := ("PHONE").data, value := phone, confidence := mkRat 6 10,
               context := ctxWindow t se.1 se.2 30, start_pos := se.1,
               end_pos := se.2,
               metadata := some [(("validated").data, .b false)] }

/-- `_extract_urls`. -/
def extractUrls (t : Str) : List ExtractedEntity :=
  (findIter urlPattern t).map fun se =>
    { type := ("URL").data, value := pySlice t se.1 se.2, confidence := mkRat 8 10,
      context := ctxWindow t se.1 se.2 30, start_pos := se.1, end_pos := se.2,
      metadata := none }

/-- `_extract_dates`: unparsable candidates are dropped. -/
def extractDates (caps : Caps) (t : Str) : List ExtractedEntity :=
  datePatterns.flatMap fun p =>
    (findIter p t).filterMap fun se =>
      let dateText := pySlice t se.1 se.2
      match parseDate caps.now caps.fuzzyDate dateText with
      | some pd =>
        some { type := ("DATE").data, value := dateText, confidence := mkRat 8 10,
               context := ctxWindow t se.1 se.2 30, start_pos := se.1,
               end_pos := se.2,
               metadata := some [(("parsed_date").data, .dt pd)] }
      | none => none

/-- `_extract_times`. -/
def extractTimes (t : Str) : List ExtractedEntity :=
  timePatterns.flatMap fun p =>
    (findIter p t).map fun se =>
      { type := ("TIME").data, value := pySlice t se.1 se.2, confidence := mkRat 7 10,
        context := ctxWindow t se.1 se.2 30, start_pos := se.1, end_pos := se.2,
        metadata := none }

/-! ## `NERService` -/

/-- `NERService._spans_overlap`. -/
def spansOverlap (a b : Nat × Nat) : Bool := a.1 < b.2 && b.1 < a.2

def nerSpan (e : NerEnt) : Nat × Nat := (e.start, e.stop)

/-- The relation used by `all_entities.sort(key=lambda x: x["start"])`;
`List.insertionSort` with it is a stable ascending sort, as Python's
`list.sort` is. -/
def startLE (a b : NerEnt) : Prop := a.start ≤ b.start

instance : DecidableRel startLE := fun a b => Nat.decLe a.start b.start

def sortByStart (l : List NerEnt) : List NerEnt := l.insertionSort startLE

/-- The accept loop of `_merge_entities`: walk candidates, keeping `merged`
and the set `seen_spans` of accepted spans. -/
def mergeWalk : List NerEnt → List NerEnt → List (Nat × Nat) → List NerEnt
  | [], merged, _ => merged
  | e :: rest, merged, seen =>
    if seen.any fun sp => spansOverlap (nerSpan e) sp then
      mergeWalk rest merged seen
    else mergeWalk rest (merged ++ [e]) (seen ++ [nerSpan e])

/-- `NERService._merge_entities`. -/
def mergeEntities (spacyEntities hfEntities : List NerEnt) : List NerEnt :=
  mergeWalk (sortByStart (spacyEntities ++ hfEntities)) [] []

/-- Insertion-ordered counter bump, modelling
`counts[k] = counts.get(k, 0) + 1` on a Python dict. -/
def bumpCount (k : Str) : List (Str × Nat) → List (Str × Nat)
  | [] => [(k, 1)]
  | (k2, v) :: rest =>
    if k2 = k then (k2, v + 1) :: rest else (k2, v) :: bumpCount k rest

/-- `NERService._count_entities` (counts by `"label"`). -/
def countNerEntities (l : List NerEnt) : List (Str × Nat) :=
  l.foldl (fun m e => bumpCount e.label m) []

/-- `NERService.extract_entities` with the default flags: the result dict in
insertion order.  A model backend that is not loaded is skipped; a loaded
backend that raises propagates. -/
def nerServiceExtract (caps : Caps) (t : Str) : Except Str NerAssoc :=
  match (if caps.spacyLoaded then caps.spacyEnts t else .ok []) with
  | .error e => .error e
  | .ok se =>
    match (if caps.hfLoaded then caps.hfEnts t else .ok []) with
    | .error e => .error e
    | .ok he =>
      let merged := mergeEntities se he
      .ok [(("spacy_entities").data, .ents se),
           (("hf_entities").data, .ents he),
           (("merged_entities").data, .ents merged),
           (("entity_counts").data, .counts (countNerEntities merged)),
           (("text_length").data, .num t.length)]

/-- The orchestrator's lookup `ner_results.get("entities", [])`; a value of
any other shape would be a Python type error, which never occurs because the
key is absent. -/
def nerGetEntities (a : NerAssoc) : List NerEnt :=
  match lookupNV a ("entities").data with
  | some (.ents l) => l
  | _ => []

/-! ## Calendar event synthesis and the orchestrator -/

/-- The sentence/entity correlation of `_extract_calendar_events`:
`[e for e in entities if e.context in sentence or sentence in e.context]`. -/
def sentenceEntities (sentence : Str) (entities : List ExtractedEntity) :
    List ExtractedEntity :=
  entities.filter fun e =>
    containsSub e.context sentence || containsSub sentence e.context

/-- `_extract_event_title`. -/
def extractEventTitle (sentence : Str) : Str :=
  match eventKeywords.find? (fun k => containsSub k (pyLower sentence)) with
  | some k =>
    let parts := pySplitSub k (pyLower sentence)
    if parts.length > 1 then
      pyCapitalize k ++ ' ' :: (pyStrip (parts.getD 1 [])).take 50
    else pyCapitalize k
  | none => pyStrip (sentence.take 50)

/-- Lookup in an entity `metadata` dict. -/
def metaLookup (md : List (Str × MetaVal)) (k : Str) : Option MetaVal :=
  (md.find? fun p => p.1 = k).map (·.2)

/-- `_combine_date_time`.  `datetime.fromisoformat` on the stored
`parsed_date` round-trips; a failing time parse leaves the date alone. -/
def combineDateTime (caps : Caps) (dateEntities timeEntities : List ExtractedEntity) :
    Option PyDT :=
  match dateEntities with
  | [] => none
  | d :: _ =>
    let fromMeta : Option PyDT :=
      match d.metadata with
      | some md =>
        match metaLookup md ("parsed_date").data with
        | some (.dt p) => some p
        | _ => none
      | none => none
    let parsed : Option PyDT :=
      match fromMeta with
      | some p => some p
      | none => parseDate caps.now caps.fuzzyDate d.value
    match parsed with
    | none => none
    | some p =>
      match timeEntities with
      | [] => some p
      | tEnt :: _ =>
        match caps.fuzzyTime tEnt.value with
        | some tod => some { p with tod := tod }
        | none => some p

/-- The body of the per-sentence loop in `_extract_calendar_events`:
`none` when the stripped sentence is empty or the guard fails. -/
def processSentence (caps : Caps) (entities : List ExtractedEntity)
    (rawSentence : Str) : Option CalendarEvent :=
  let sentence := pyStrip rawSentence
  if sentence = [] then none
  else
    let hasEventKeyword :=
      eventKeywords.any fun k => containsSub k (pyLower sentence)
    let sentEnts := sentenceEntities sentence entities
    let dateEntities := sentEnts.filter fun e => e.type = ("DATE").data
    let timeEntities := sentEnts.filter fun e => e.type = ("TIME").data
    let personEntities := sentEnts.filter fun e =>
      e.type = ("PERSON").data || e.type = ("ORG").data
    let locationEntities := sentEnts.filter fun e =>
      e.type = ("GPE").data || e.type = ("LOC").data || e.type = ("FAC").data
    if hasEventKeyword && (!dateEntities.isEmpty || !timeEntities.isEmpty) then
      some { title := extractEventTitle sentence,
             description := sentence,
             start_time := combineDateTime caps dateEntities timeEntities,
             end_time := none,
             location := (locationEntities.head?).map (·.value),
             attendees := personEntities.map (·.value),
             confidence :=
               if hasEventKeyword && !dateEntities.isEmpty &&
                  !timeEntities.isEmpty then mkRat 7 10 else mkRat 5 10,
             source_text := sentence,
             entities := sentEnts }
    else none

/-- `_extract_calendar_events`: split on `'.'` and process each sentence. -/
def extractCalendarEvents (caps : Caps) (t : Str)
    (entities : List ExtractedEntity) : List CalendarEvent :=
  (pySplitChar '.' t).filterMap (processSentence caps entities)

/-- `EntityExtractionService._count_entities` (counts by `type`). -/
def countEntities (l : List ExtractedEntity) : List (Str × Nat) :=
  l.foldl (fun m e => bumpCount e.type m) []

/-- The result dict of `extract_entities`; keys absent from a given return
path are `none`. -/
structure EEResult where
  entities : List ExtractedEntity
  entity_counts : Option (List (Str × Nat))
  text_length : Option Nat
  word_count : Option Nat
  calendar_events : Option (List CalendarEvent)
deriving DecidableEq, Repr

/-- Conversion of one NER dict entry into an `ExtractedEntity` by the
orchestrator (`metadata={"source": "ner"}`); a missing `confidence` key
would raise in Python but the loop never runs (the key `"entities"` is
absent), so `getD 0` is unreachable. -/
def nerToExtracted (t : Str) (e : NerEnt) : ExtractedEntity :=
  { type := e.label, value := e.text, confidence := (e.confidence).getD 0,
    context := ctxWindow t e.start e.stop 50,
    start_pos := e.start, end_pos := e.stop,
    metadata := some [(("source").data, .s ("ner").data)] }

/-- `EntityExtractionService.extract_entities(text, include_calendar)`. -/
def extractEntities (caps : Caps) (t : Str) (includeCalendar : Bool) :
    Except Str EEResult :=
  if pyStrip t = [] then
    .ok { entities := [], entity_counts := none, text_length := none,
          word_count := none, calendar_events := some [] }
  else
    match nerServiceExtract caps t with
    | .error e => .error e
    | .ok nerResults =>
      let entities :=
        (nerGetEntities nerResults).map (nerToExtracted t)
          ++ extractEmails caps t ++ extractPhones caps t ++ extractUrls t
          ++ extractDates caps t ++ extractTimes t
      .ok { entities := entities,
            entity_counts := some (countEntities entities),
            text_length := some t.length,
            word_count := some (pyWordCount t),
            calendar_events :=
              if includeCalendar then some (extractCalendarEvents caps t entities)
              else none }

/-- One element of the `extract_action_items` result. -/
structure ActionItem where
  text : Str
  full_context : Str
  confidence : Rat
  type : Str
  extracted_at : Str
deriving DecidableEq, Repr

/-- `extract_action_items`, with `datetime.now().isoformat()` passed in as
`nowIso`.  Matches whose stripped capture is empty are skipped. -/
def extractActionItems (nowIso : Str) (t : Str) : List ActionItem :=
  actionPrefixes.flatMap fun pre =>
    (findActions pre t).filterMap fun m =>
      let actionText := pyStrip (pySlice t m.2.1 m.2.2)
      if actionText = [] then none
      else
        some { text := actionText, full_context := pySlice t m.1 m.2.2,
               confidence := mkRat 8 10, type := ("action_item").data,
               extracted_at := nowIso }

instance {ε α : Type} [DecidableEq ε] [DecidableEq α] :
    DecidableEq (Except ε α) := fun a b =>
  match a, b with
  | .ok x, .ok y =>
    if h : x = y then .isTrue (by rw [h]) else .isFalse (by intro hc; cases hc; exact h rfl)
  | .error x, .error y =>
    if h : x = y then .isTrue (by rw [h]) else .isFalse (by intro hc; cases hc; exact h rfl)
  | .ok _, .error _ => .isFalse (by intro hc; cases hc)
  | .error _, .ok _ => .isFalse (by intro hc; cases hc)

/-- Entity list of an orchestrator result (`[]` on the error path). -/
def entitiesOf : Except Str EEResult → List ExtractedEntity
  | .ok r => r.entities
  | .error _ => []

/-! ## Example capabilities used by concrete instantiations -/

/-- Concrete external capabilities: both NER backends succeed with no
entities, every third-party parser declines.  `now` is 2026-10-12, a
Monday. -/
def exCaps : Caps :=
  { now := ⟨2026, 10, 12, 0⟩,
    fuzzyDate := fun _ => none,
    fuzzyTime := fun _ => none,
    validateEmail := fun _ => none,
    phoneCheck := fun _ => .parseFail,
    spacyLoaded := true, hfLoaded := true,
    spacyEnts := fun _ => .ok [], hfEnts := fun _ => .ok [] }

/-! ## Support lemmas about the orchestrator -/

theorem nerServiceExtract_shape (caps : Caps) (t : Str) (nr : NerAssoc)
    (h : nerServiceExtract caps t = .ok nr) :
    ∃ se he, nr =
      [(("spacy_entities").data, .ents se),
       (("hf_entities").data, .ents he),
       (("merged_entities").data, .ents (mergeEntities se he)),
       (("entity_counts").data, .counts (countNerEntities (mergeEntities se he))),
       (("text_length").data, .num t.length)] := by
  unfold nerServiceExtract at h
  cases hsp : (if caps.spacyLoaded then caps.spacyEnts t else .ok ([] : List NerEnt)) with
  | error e => rw [hsp] at h; cases h
  | ok se =>
    rw [hsp] at h
    cases hhf : (if caps.hfLoaded then caps.hfEnts t else .ok ([] : List NerEnt)) with
    | error e => rw [hhf] at h; cases h
    | ok he =>
      rw [hhf] at h
      cases h
      exact ⟨se, he, rfl⟩

theorem nerGetEntities_shape (se he m : List NerEnt) (c : List (Str × Nat)) (n : Nat) :
    nerGetEntities
      [(("spacy_entities").data, .ents se), (("hf_entities").data, .ents he),
       (("merged_entities").data, .ents m), (("entity_counts").data, .counts c),
       (("text_length").data, .num n)] = [] := rfl

theorem extractEntities_ner_error (caps : Caps) (t : Str) (ic : Bool) (msg : Str)
    (hne : pyStrip t ≠ []) (h : nerServiceExtract caps t = .error msg) :
    extractEntities caps t ic = .error msg := by
  unfold extractEntities
  rw [if_neg hne, h]

theorem extractEntities_ner_ok (caps : Caps) (t : Str) (ic : Bool) (nr : NerAssoc)
    (hne : pyStrip t ≠ []) (h : nerServiceExtract caps t = .ok nr) :
    extractEntities caps t ic = .ok
      { entities := (nerGetEntities nr).map (nerToExtracted t)
          ++ extractEmails caps t ++ extractPhones caps t ++ extractUrls t
          ++ extractDates caps t ++ extractTimes t,
        entity_counts := some (countEntities
          ((nerGetEntities nr).map (nerToExtracted t)
            ++ extractEmails caps t ++ extractPhones caps t ++ extractUrls t
            ++ extractDates caps t ++ extractTimes t)),
        text_length := some t.length,
        word_count := some (pyWordCount t),
        calendar_events :=
          if ic then some (extractCalendarEvents caps t
            ((nerGetEntities nr).map (nerToExtracted t)
              ++ extractEmails caps t ++ extractPhones caps t ++ extractUrls t
              ++ extractDates caps t ++ extractTimes t))
          else none } := by
  unfold extractEntities
  rw [if_neg hne, h]

/-- On any successful non-blank call, the entity list is exactly the
concatenation of the five pattern-recognizer outputs (the NER contribution
is always empty), and the counts are computed from that list. -/
theorem extractEntities_ok_entities (caps : Caps) (t : Str) (ic : Bool)
    (r : EEResult) (hne : pyStrip t ≠ []) (hok : extractEntities caps t ic = .ok r) :
    r.entities = extractEmails caps t ++ extractPhones caps t ++ extractUrls t
        ++ extractDates caps t ++ extractTimes t ∧
    r.entity_counts = some (countEntities r.entities) := by
  cases hner : nerServiceExtract caps t with
  | error msg => rw [extractEntities_ner_error caps t ic msg hne hner] at hok; cases hok
  | ok nr =>
    obtain ⟨se, he, hshape⟩ := nerServiceExtract_shape caps t nr hner
    rw [extractEntities_ner_ok caps t ic nr hne hner] at hok
    cases hok
    subst hshape
    rw [nerGetEntities_shape]
    simp

/-! ## Claim C9 -/

/-- Claim C9: if the external NER capability raises on a non-blank text,
`extract_entities` propagates that single error — the NER call precedes all
pattern recognizers, and the error result carries no entity list (a spaCy
failure with the backend loaded, or an HF failure once spaCy has
succeeded or is skipped, both abort the call). -/
theorem claim9_ner_failure_fatal (caps : Caps) (t : Str) (msg : Str) (ic : Bool)
    (hne : pyStrip t ≠ []) :
    (caps.spacyLoaded = true → caps.spacyEnts t = .error msg →
       extractEntities caps t ic = .error msg) ∧
    (∀ se, (caps.spacyLoaded = true ∧ caps.spacyEnts t = .ok se) ∨
             (caps.spacyLoaded = false ∧ se = []) →
       caps.hfLoaded = true → caps.hfEnts t = .error msg →
       extractEntities caps t ic = .error msg) := by
  constructor
  · intro hl hsp
    apply extractEntities_ner_error caps t ic msg hne
    unfold nerServiceExtract
    rw [if_pos hl, hsp]
  · intro se hse hhl hhf
    apply extractEntities_ner_error caps t ic msg hne
    unfold nerServiceExtract
    rcases hse with ⟨hl, hsp⟩ | ⟨hl, hse0⟩
    · rw [if_pos hl, hsp, if_pos hhl, hhf]
    · rw [hl]
      simp only [Bool.false_eq_true, if_false]
      rw [if_pos hhl, hhf]

/-- Witness for C9 at a concrete capability set and text. -/
theorem claim9_ner_failure_fatal_witness :
    extractEntities
      { exCaps with spacyEnts := fun _ => .error ("model down").data }
      ("call Bob").data true = .error ("model down").data :=
  (claim9_ner_failure_fatal
      { exCaps with spacyEnts := fun _ => .error ("model down").data }
      (("call Bob").data) (("model down").data) true (by decide)).1
    (by decide) rfl

/-! ## Claim C2 -/

/-- Whether an entity carries the NER provenance tag
`metadata = {"source": "ner", …}`. -/
def nerSourced (e : ExtractedEntity) : Bool :=
  match e.metadata with
  | some md =>
    match metaLookup md (("source").data) with
    | some (.s v) => v = ("ner").data
    | _ => false
  | none => false

theorem not_nerSourced_emails (caps : Caps) (t : Str) :
    ∀ e ∈ extractEmails caps t, nerSourced e = false := by
  intro e he
  obtain ⟨se, _, hfe⟩ := List.mem_map.mp he
  cases hv : caps.validateEmail (pySlice t se.1 se.2) <;>
    · rw [← hfe]
      simp only [extractEmails, hv]
      rfl

theorem not_nerSourced_phones (caps : Caps) (t : Str) :
    ∀ e ∈ extractPhones caps t, nerSourced e = false := by
  intro e he
  obtain ⟨p, _, hpe⟩ := List.mem_flatMap.mp he
  obtain ⟨se, _, hfe⟩ := List.mem_filterMap.mp hpe
  dsimp only at hfe
  cases hv : caps.phoneCheck (pySlice t se.1 se.2) <;> rw [hv] at hfe
  · cases hfe; rfl
  · cases hfe
  · cases hfe; rfl

theorem not_nerSourced_urls (t : Str) : ∀ e ∈ extractUrls t, nerSourced e = false := by
  intro e he
  obtain ⟨se, _, hfe⟩ := List.mem_map.mp he
  rw [← hfe]; rfl

theorem not_nerSourced_dates (caps : Caps) (t : Str) :
    ∀ e ∈ extractDates caps t, nerSourced e = false := by
  intro e he
  obtain ⟨p, _, hpe⟩ := List.mem_flatMap.mp he
  obtain ⟨se, _, hfe⟩ := List.mem_filterMap.mp hpe
  dsimp only at hfe
  cases hv : parseDate caps.now caps.fuzzyDate (pySlice t se.1 se.2) <;> rw [hv] at hfe
  · cases hfe
  · cases hfe; rfl

theorem not_nerSourced_times (t : Str) : ∀ e ∈ extractTimes t, nerSourced e = false := by
  intro e he
  obtain ⟨p, _, hpe⟩ := List.mem_flatMap.mp he
  obtain ⟨se, _, hfe⟩ := List.mem_map.mp hpe
  rw [← hfe]; rfl

/-- Claim C2: the dict returned by `NERService.extract_entities` has exactly
the keys `spacy_entities`, `hf_entities`, `merged_entities`, `entity_counts`,
`text_length` — no key `"entities"` — so the orchestrator's
`ner_results.get("entities", [])` is empty and every entity in any
successful result comes from a pattern recognizer; none carries the
`{"source": "ner"}` provenance tag. -/
theorem claim2_no_ner_derived_entities (caps : Caps) (t : Str) (ic : Bool) :
    (∀ nr, nerServiceExtract caps t = .ok nr →
       lookupNV nr (("entities").data) = none ∧
       nr.map Prod.fst =
         [("spacy_entities").data, ("hf_entities").data,
          ("merged_entities").data, ("entity_counts").data,
          ("text_length").data] ∧
       nerGetEntities nr = []) ∧
    (∀ r, extractEntities caps t ic = .ok r →
       ∀ e ∈ r.entities,
         nerSourced e = false ∧
         (e ∈ extractEmails caps t ∨ e ∈ extractPhones caps t ∨
          e ∈ extractUrls t ∨ e ∈ extractDates caps t ∨ e ∈ extractTimes t)) := by
  constructor
  · intro nr hnr
    obtain ⟨se, he, hshape⟩ := nerServiceExtract_shape caps t nr hnr
    subst hshape
    exact ⟨rfl, rfl, rfl⟩
  · intro r hr e he
    by_cases hne : pyStrip t = []
    · unfold extractEntities at hr
      rw [if_pos hne] at hr
      cases hr
      cases he
    · obtain ⟨hents, _⟩ := extractEntities_ok_entities caps t ic r hne hr
      rw [hents] at he
      have hmem :
          e ∈ extractEmails caps t ∨ e ∈ extractPhones caps t ∨
          e ∈ extractUrls t ∨ e ∈ extractDates caps t ∨ e ∈ extractTimes t := by
        simpa [List.mem_append, or_assoc] using he
      refine ⟨?_, hmem⟩
      rcases hmem with h | h | h | h | h
      · exact not_nerSourced_emails caps t e h
      · exact not_nerSourced_phones caps t e h
      · exact not_nerSourced_urls t e h
      · exact not_nerSourced_dates caps t e h
      · exact not_nerSourced_times t e h

/-- Witness for C2: on `"noon"` with the example capabilities the single
returned entity is the TIME recognizer's, not NER-derived. -/
theorem claim2_no_ner_derived_entities_witness :
    ∀ r, extractEntities exCaps ("noon").data false = .ok r →
      ∀ e ∈ r.entities, nerSourced e = false := by
  intro r hr e he
  exact ((claim2_no_ner_derived_entities exCaps (("noon").data) false).2 r hr e he).1

/-! ## Claim C1 -/

/-- Claim C1's stated invariant, as a boolean check: no two entities with
overlapping half-open spans. -/
def pairwiseNoOverlapB : List ExtractedEntity → Bool
  | [] => true
  | e :: rest =>
    rest.all (fun f => !spansOverlap (e.start_pos, e.end_pos) (f.start_pos, f.end_pos))
      && pairwiseNoOverlapB rest

/-- Claim C1's stated ordering, as a boolean check: ascending `start_pos`. -/
def ascendingByStartB : List ExtractedEntity → Bool
  | [] => true
  | [_] => true
  | a :: b :: rest => a.start_pos ≤ b.start_pos && ascendingByStartB (b :: rest)

/-- The text refuting C1. -/
def exText : Str := ("at 3:30pm").data

/-- Counterexample to C1: on the non-empty text `"at 3:30pm"` (with the NER
capability returning no entities) the orchestrator returns three TIME
entities with spans `(3,9)`, `(5,9)`, `(0,9)` — mutually overlapping and not
ordered by `start_pos`.  No merging is applied to the orchestrator's list. -/
theorem claim1_overlap_sorted_counterexample :
    pyStrip exText ≠ [] ∧
    (entitiesOf (extractEntities exCaps exText false)).map
        (fun e => (e.start_pos, e.end_pos)) = [(3, 9), (5, 9), (0, 9)] ∧
    ¬(pairwiseNoOverlapB (entitiesOf (extractEntities exCaps exText false)) = true ∧
      ascendingByStartB (entitiesOf (extractEntities exCaps exText false)) = true) := by
  refine ⟨by decide, by decide, ?_⟩
  intro h
  exact absurd h.1 (by decide)

/-- Claim C1, amended: the entity list of a successful non-blank
`extract_entities` call is the plain concatenation of the email, phone, URL,
date and time recognizer outputs in that order (the NER contribution is
empty); the orchestrator applies no merging, so overlapping spans and
non-ascending start positions can occur. -/
theorem claim1_entities_concatenation (caps : Caps) (t : Str) (ic : Bool)
    (r : EEResult) (hne : pyStrip t ≠ [])
    (hok : extractEntities caps t ic = .ok r) :
    r.entities = extractEmails caps t ++ extractPhones caps t ++ extractUrls t
      ++ extractDates caps t ++ extractTimes t :=
  (extractEntities_ok_entities caps t ic r hne hok).1

/-- Witness for the amended C1 at the concrete counterexample text. -/
theorem claim1_entities_concatenation_witness :
    entitiesOf (extractEntities exCaps exText false) =
      extractEmails exCaps exText ++ extractPhones exCaps exText
        ++ extractUrls exText ++ extractDates exCaps exText
        ++ extractTimes exText := by
  have h := claim1_entities_concatenation exCaps exText false
    { entities := extractTimes exText,
      entity_counts := some (countEntities (extractTimes exText)),
      text_length := some 9, word_count := some 2, calendar_events := none }
    (by decide) (by decide)
  simpa using h

/-! ## Claim C3 -/

/-- The selection predicate exactly as Claim C3 words it: the entity's
`context` contains the sentence, or the entity's own `value` appears within
the sentence. -/
def claim3ValuePred (sentence : Str) (e : ExtractedEntity) : Bool :=
  containsSub sentence e.context || containsSub e.value sentence

/-- An entity whose value `"x"` occurs in the sentence `"x and y"` but whose
context window `"qxz"` neither contains nor is contained in it. -/
def exC3Entity : ExtractedEntity :=
  { type := ("DATE").data, value := ("x").data, confidence := mkRat 8 10,
    context := ("qxz").data, start_pos := 0, end_pos := 1, metadata := none }

/-- Counterexample to C3: the code's `e.context in sentence or sentence in
e.context` check never consults `e.value`, so this entity is selected by the
claim's predicate but not by the Synthesizer. -/
theorem claim3_value_match_counterexample :
    claim3ValuePred ("x and y").data exC3Entity = true ∧
    sentenceEntities ("x and y").data [exC3Entity] = [] := by
  constructor <;> decide

/-- Claim C3, amended: `sentence_entities` holds exactly the entities whose
`context` is a substring of the sentence or that have the whole sentence as
a substring of their `context` (containment between context and sentence in
either direction; the entity's `value` plays no part). -/
theorem claim3_context_containment (sentence : Str)
    (entities : List ExtractedEntity) (e : ExtractedEntity) :
    e ∈ sentenceEntities sentence entities ↔
      e ∈ entities ∧ (containsSub e.context sentence = true ∨
                      containsSub sentence e.context = true) := by
  unfold sentenceEntities
  rw [List.mem_filter]
  simp [Bool.or_eq_true]

/-! ## Claim C4 -/

theorem notIsEmpty_iff (l : List ExtractedEntity) : (!l.isEmpty) = true ↔ l ≠ [] := by
  cases l <;> simp

/-- Claim C4: for a non-empty trimmed sentence, a `CalendarEvent` is emitted
iff the sentence contains an event keyword (case-insensitive substring) and
its `sentence_entities` include a DATE or a TIME entity; the event's
confidence is 0.7 (= 7/10) when both a DATE and a TIME entity are present
and 0.5 otherwise; and the synthesizer emits at most one event per
(`'.'`-split) sentence. -/
theorem claim4_event_emission_and_confidence (caps : Caps)
    (entities : List ExtractedEntity) (s : Str)
    (hstrip : pyStrip s = s) (hne : s ≠ []) :
    ((∃ ev, processSentence caps entities s = some ev) ↔
      ((eventKeywords.any fun k => containsSub k (pyLower s)) = true ∧
       ((sentenceEntities s entities).filter (fun e => e.type = ("DATE").data) ≠ [] ∨
        (sentenceEntities s entities).filter (fun e => e.type = ("TIME").data) ≠ []))) ∧
    (∀ ev, processSentence caps entities s = some ev →
       ev.confidence =
         if (sentenceEntities s entities).filter (fun e => e.type = ("DATE").data) ≠ [] ∧
            (sentenceEntities s entities).filter (fun e => e.type = ("TIME").data) ≠ []
         then mkRat 7 10 else mkRat 5 10) ∧
    (∀ t, (extractCalendarEvents caps t entities).length ≤
            (pySplitChar '.' t).length) := by
  have hkD := notIsEmpty_iff
    ((sentenceEntities s entities).filter (fun e => e.type = ("DATE").data))
  have hkT := notIsEmpty_iff
    ((sentenceEntities s entities).filter (fun e => e.type = ("TIME").data))
  refine ⟨?_, ?_, ?_⟩
  · unfold processSentence
    rw [hstrip, if_neg hne]
    by_cases hc :
        ((eventKeywords.any fun k => containsSub k (pyLower s)) &&
         (!((sentenceEntities s entities).filter
              (fun e => e.type = ("DATE").data)).isEmpty ||
          !((sentenceEntities s entities).filter
              (fun e => e.type = ("TIME").data)).isEmpty)) = true
    · rw [if_pos hc]
      rcases Bool.and_eq_true_iff.mp hc with ⟨hkw, hdt⟩
      constructor
      · intro _
        refine ⟨hkw, ?_⟩
        rcases Bool.or_eq_true_iff.mp hdt with h | h
        · exact Or.inl (hkD.mp h)
        · exact Or.inr (hkT.mp h)
      · intro _
        exact ⟨_, rfl⟩
    · rw [if_neg hc]
      constructor
      · intro ⟨ev, hev⟩
        cases hev
      · intro ⟨hkw, hdt⟩
        exfalso
        apply hc
        rw [Bool.and_eq_true_iff]
        refine ⟨hkw, ?_⟩
        rw [Bool.or_eq_true_iff]
        rcases hdt with h | h
        · exact Or.inl (hkD.mpr h)
        · exact Or.inr (hkT.mpr h)
  · intro ev hev
    unfold processSentence at hev
    rw [hstrip, if_neg hne] at hev
    by_cases hc :
        ((eventKeywords.any fun k => containsSub k (pyLower s)) &&
         (!((sentenceEntities s entities).filter
              (fun e => e.type = ("DATE").data)).isEmpty ||
          !((sentenceEntities s entities).filter
              (fun e => e.type = ("TIME").data)).isEmpty)) = true
    · rw [if_pos hc] at hev
      cases hev
      dsimp only
      rcases Bool.and_eq_true_iff.mp hc with ⟨hkw, _⟩
      by_cases hd : (sentenceEntities s entities).filter
          (fun e => e.type = ("DATE").data) = []
      · have hdb : (!((sentenceEntities s entities).filter
            (fun e => e.type = ("DATE").data)).isEmpty) = false := by
          rw [hd]; rfl
        simp only [hdb, Bool.and_false, Bool.false_and, Bool.false_eq_true,
          if_false]
        rw [if_neg]
        intro h
        exact h.1 hd
      · by_cases ht : (sentenceEntities s entities).filter
            (fun e => e.type = ("TIME").data) = []
        · have htb : (!((sentenceEntities s entities).filter
              (fun e => e.type = ("TIME").data)).isEmpty) = false := by
            rw [ht]; rfl
          simp only [htb, Bool.and_false, Bool.false_eq_true, if_false]
          rw [if_neg]
          intro h
          exact h.2 ht
        · simp only [hkw, hkD.mpr hd, hkT.mpr ht, Bool.and_true, Bool.true_and]
          rw [if_pos trivial, if_pos ⟨hd, ht⟩]
    · rw [if_neg hc] at hev
      cases hev
  · intro t
    exact List.length_filterMap_le _ _

/-- A DATE entity whose context `"meet"` is a substring of the sentence
`"meeting"`. -/
def wC4Entity : ExtractedEntity :=
  { type := ("DATE").data, value := ("tomorrow").data, confidence := mkRat 8 10,
    context := ("meet").data, start_pos := 0, end_pos := 1, metadata := none }

/-- Witness for C4: the sentence `"meeting"` with one DATE entity yields an
event of confidence 0.5. -/
theorem claim4_event_emission_and_confidence_witness :
    (∃ ev, processSentence exCaps [wC4Entity] ("meeting").data = some ev) ∧
    (∀ ev, processSentence exCaps [wC4Entity] ("meeting").data = some ev →
       ev.confidence = mkRat 5 10) := by
  have h := claim4_event_emission_and_confidence exCaps [wC4Entity]
    (("meeting").data) (by decide) (by decide)
  exact ⟨h.1.mpr (by decide), fun ev hev => (h.2.1 ev hev).trans (by decide)⟩

/-! ## Claim C5 -/

instance : IsTotal NerEnt startLE :=
  ⟨fun a b => Nat.le_total a.start b.start⟩

instance : IsTrans NerEnt startLE :=
  ⟨fun _ _ _ hab hbc => Nat.le_trans hab hbc⟩

/-- The Merger contract as the spec states it: walk the sorted sequence and
accept a candidate iff its span overlaps no previously ACCEPTED entity's
span. -/
def greedyMergeSpec (l : List NerEnt) : List NerEnt :=
  l.foldl
    (fun acc e =>
      if acc.any (fun a => spansOverlap (nerSpan e) (nerSpan a)) then acc
      else acc ++ [e])
    []

theorem mergeWalk_eq_foldl (l : List NerEnt) :
    ∀ acc : List NerEnt,
      mergeWalk l acc (acc.map nerSpan) =
        l.foldl
          (fun acc e =>
            if acc.any (fun a => spansOverlap (nerSpan e) (nerSpan a)) then acc
            else acc ++ [e])
          acc := by
  induction l with
  | nil => intro acc; rfl
  | cons e rest ih =>
    intro acc
    unfold mergeWalk
    have hcond :
        ((acc.map nerSpan).any fun sp => spansOverlap (nerSpan e) sp) =
          acc.any (fun a => spansOverlap (nerSpan e) (nerSpan a)) := by
      induction acc with
      | nil => rfl
      | cons a rest2 ih2 => simp [List.any_cons, ih2]
    rw [hcond]
    by_cases hc : acc.any (fun a => spansOverlap (nerSpan e) (nerSpan a)) = true
    · rw [if_pos hc]
      rw [List.foldl_cons, if_pos hc]
      exact ih acc
    · rw [if_neg hc, List.foldl_cons, if_neg hc]
      have : acc.map nerSpan ++ [nerSpan e] = (acc ++ [e]).map nerSpan := by
        rw [List.map_append]; rfl
      rw [this]
      exact ih (acc ++ [e])

/-- The tie-break example input from the spec: a DATE span `[0,9)` listed
before an overlapping PERSON span `[0,5)`. -/
def exDateNer : NerEnt :=
  { text := ("today 9am").data, label := ("DATE").data, start := 0, stop := 9,
    source := ("spacy").data }

def exPersonNer : NerEnt :=
  { text := ("today").data, label := ("PERSON").data, start := 0, stop := 5,
    source := ("spacy").data }

/-- Claim C5: `_merge_entities` concatenates its two inputs, stably sorts by
ascending start (the sorted list is ordered and a permutation of the
concatenation), and greedily accepts each candidate iff it overlaps no
previously accepted span (overlap of `[a0,a1)` and `[b0,b1)` iff
`a0 < b1 ∧ b0 < a1`); on the spec's tie-break example the first-listed DATE
entity alone survives. -/
theorem claim5_merger_greedy_first_wins :
    (∀ l1 l2 : List NerEnt,
        mergeEntities l1 l2 = greedyMergeSpec (sortByStart (l1 ++ l2)) ∧
        List.Sorted startLE (sortByStart (l1 ++ l2)) ∧
        (sortByStart (l1 ++ l2)).Perm (l1 ++ l2)) ∧
    mergeEntities [exDateNer, exPersonNer] [] = [exDateNer] := by
  refine ⟨fun l1 l2 => ⟨?_, ?_, ?_⟩, by decide⟩
  · unfold mergeEntities greedyMergeSpec
    have h := mergeWalk_eq_foldl (sortByStart (l1 ++ l2)) []
    simpa using h
  · exact List.sorted_insertionSort startLE (l1 ++ l2)
  · exact List.perm_insertionSort startLE (l1 ++ l2)

/-! ## Claim C6 -/

/-- The weekday offset computed by `_parse_date`:
`days_ahead = i - today.weekday(); if days_ahead <= 0: days_ahead += 7`. -/
def nextWeekdayOffset (w : Int) (i : Fin 7) : Int :=
  if (i : Int) - w ≤ 0 then (i : Int) - w + 7 else (i : Int) - w

theorem pyWeekday_bounds (t : PyDT) : 0 ≤ pyWeekday t ∧ pyWeekday t < 7 := by
  unfold pyWeekday
  dsimp only
  exact ⟨Int.emod_nonneg _ (by norm_num), Int.emod_lt_of_pos _ (by norm_num)⟩

theorem daysInMonth_bounds (y m : Int) (h1 : 1 ≤ m) (h2 : m ≤ 12) :
    28 ≤ daysInMonth y m ∧ daysInMonth y m ≤ 31 := by
  unfold daysInMonth
  split_ifs <;> omega

/-- Lexicographic key that strictly increases day by day on valid dates. -/
def dtKey (t : PyDT) : Int := t.year * 512 + t.month * 32 + t.day

theorem nextDay_valid_key (t : PyDT) (ht : t.ValidDate) :
    (nextDay t).ValidDate ∧ dtKey t < dtKey (nextDay t) := by
  obtain ⟨hm1, hm2, hd1, hd2⟩ := ht
  have hb := daysInMonth_bounds t.year t.month hm1 hm2
  unfold nextDay PyDT.ValidDate dtKey
  split_ifs with h1 h2
  · dsimp only
    omega
  · have hb2 := daysInMonth_bounds t.year (t.month + 1) (by omega) h2
    dsimp only
    omega
  · have hb3 : daysInMonth (t.year + 1) 1 = 31 := by norm_num [daysInMonth]
    dsimp only
    omega

theorem addDays_valid_key (t : PyDT) (ht : t.ValidDate) :
    ∀ n : Nat, (addDays t n).ValidDate ∧ dtKey t + n ≤ dtKey (addDays t n) := by
  intro n
  induction n with
  | zero => exact ⟨ht, by simp [addDays]⟩
  | succ k ih =>
    obtain ⟨hv, hk⟩ := ih
    obtain ⟨hv2, hk2⟩ := nextDay_valid_key (addDays t k) hv
    exact ⟨hv2, by unfold addDays; omega⟩

theorem addDays_ne (t : PyDT) (ht : t.ValidDate) (n : Nat) (hn : 1 ≤ n) :
    addDays t n ≠ t := by
  intro he
  have h := (addDays_valid_key t ht n).2
  rw [he] at h
  omega

/-- Claim C6: `_parse_date` checks the literal keywords in order —
`tomorrow` → +1 day, `yesterday` → −1 day, `next week` → +7 days,
`next month` → +1 calendar month, `next year` → +1 calendar year — before
weekday names; a bare weekday name resolves `daysAhead ∈ [1,7]` forward with
`(weekday + daysAhead) ≡ target (mod 7)`, equals exactly 7 when the name is
today's weekday, and (on a valid date) never yields today itself. -/
theorem claim6_relative_date_resolution (now : PyDT) (fuzzy : Str → Option PyDT)
    (s : Str) :
    (containsSub ("tomorrow").data (pyLower s) = true →
       parseDate now fuzzy s = some (addDays now 1)) ∧
    (containsSub ("tomorrow").data (pyLower s) = false →
     containsSub ("yesterday").data (pyLower s) = true →
       parseDate now fuzzy s = some (prevDay now)) ∧
    (containsSub ("tomorrow").data (pyLower s) = false →
     containsSub ("yesterday").data (pyLower s) = false →
     containsSub ("next week").data (pyLower s) = true →
       parseDate now fuzzy s = some (addDays now 7)) ∧
    (containsSub ("tomorrow").data (pyLower s) = false →
     containsSub ("yesterday").data (pyLower s) = false →
     containsSub ("next week").data (pyLower s) = false →
     containsSub ("next month").data (pyLower s) = true →
       parseDate now fuzzy s = some (addMonths1 now)) ∧
    (containsSub ("tomorrow").data (pyLower s) = false →
     containsSub ("yesterday").data (pyLower s) = false →
     containsSub ("next week").data (pyLower s) = false →
     containsSub ("next month").data (pyLower s) = false →
     containsSub ("next year").data (pyLower s) = true →
       parseDate now fuzzy s = some (addYears1 now)) ∧
    (∀ i : Fin 7, s = weekdayName i →
       parseDate now fuzzy s =
         some (addDays now (nextWeekdayOffset (pyWeekday now) i).toNat) ∧
       1 ≤ nextWeekdayOffset (pyWeekday now) i ∧
       nextWeekdayOffset (pyWeekday now) i ≤ 7 ∧
       (pyWeekday now + nextWeekdayOffset (pyWeekday now) i) % 7 = (i : Int) ∧
       (pyWeekday now = (i : Int) → nextWeekdayOffset (pyWeekday now) i = 7) ∧
       (now.ValidDate →
         addDays now (nextWeekdayOffset (pyWeekday now) i).toNat ≠ now)) := by
  have hw := pyWeekday_bounds now
  refine ⟨?_, ?_, ?_, ?_, ?_, ?_⟩
  · intro h1
    unfold parseDate
    rw [if_pos h1]
  · intro h1 h2
    unfold parseDate
    rw [if_neg (by simp [h1]), if_pos h2]
  · intro h1 h2 h3
    unfold parseDate
    rw [if_neg (by simp [h1]), if_neg (by simp [h2]), if_pos h3]
  · intro h1 h2 h3 h4
    unfold parseDate
    rw [if_neg (by simp [h1]), if_neg (by simp [h2]), if_neg (by simp [h3]),
        if_pos h4]
  · intro h1 h2 h3 h4 h5
    unfold parseDate
    rw [if_neg (by simp [h1]), if_neg (by simp [h2]), if_neg (by simp [h3]),
        if_neg (by simp [h4]), if_pos h5]
  · intro i hs
    subst hs
    have hi : (i : Int) < 7 := by
      have := i.isLt
      omega
    have hi0 : 0 ≤ (i : Int) := by positivity
    have hparse : parseDate now fuzzy (weekdayName i) =
        some (addDays now (nextWeekdayOffset (pyWeekday now) i).toNat) := by
      fin_cases i <;> rfl
    have hrange : 1 ≤ nextWeekdayOffset (pyWeekday now) i ∧
        nextWeekdayOffset (pyWeekday now) i ≤ 7 := by
      unfold nextWeekdayOffset
      split_ifs <;> omega
    have hmod : (pyWeekday now + nextWeekdayOffset (pyWeekday now) i) % 7 =
        (i : Int) := by
      unfold nextWeekdayOffset
      split_ifs <;> omega
    refine ⟨hparse, hrange.1, hrange.2, hmod, ?_, ?_⟩
    · intro hwi
      unfold nextWeekdayOffset
      rw [← hwi]
      simp
    · intro hvalid
      apply addDays_ne now hvalid
      omega

/-- Witness for C6 at `now` = Monday 2026-10-12: `"tomorrow"` resolves one
day forward, and the bare name of today's weekday resolves to `now + 7`,
which differs from `now`. -/
theorem claim6_relative_date_resolution_witness :
    parseDate ⟨2026, 10, 12, 0⟩ (fun _ => none) ("tomorrow").data =
      some (addDays ⟨2026, 10, 12, 0⟩ 1) ∧
    parseDate ⟨2026, 10, 12, 0⟩ (fun _ => none) ("monday").data =
      some (addDays ⟨2026, 10, 12, 0⟩ 7) ∧
    addDays ⟨2026, 10, 12, 0⟩ 7 ≠ ⟨2026, 10, 12, 0⟩ := by
  have h1 := claim6_relative_date_resolution ⟨2026, 10, 12, 0⟩ (fun _ => none)
    (("tomorrow").data)
  have h2 := claim6_relative_date_resolution ⟨2026, 10, 12, 0⟩ (fun _ => none)
    (("monday").data)
  obtain ⟨hp, _, _, _, _, hne⟩ := h2.2.2.2.2.2 0 rfl
  have hoff : (nextWeekdayOffset (pyWeekday ⟨2026, 10, 12, 0⟩) 0).toNat = 7 := by
    decide
  refine ⟨h1.1 (by decide), ?_, ?_⟩
  · rw [hp, hoff]
  · rw [← hoff]
    exact hne (by decide)

/-! ## Claim C8 -/

/-- Counterexample to C8: on `"I need to call John tomorrow"` the
`need to …` frame **and** the `contact|call|email …` frame both fire, so
`extract_action_items` returns two items, not exactly one. -/
theorem claim8_single_item_counterexample :
    (extractActionItems ("2026-10-12T00:00:00").data
        ("I need to call John tomorrow").data).length = 2 ∧
    ¬ (extractActionItems ("2026-10-12T00:00:00").data
        ("I need to call John tomorrow").data).length = 1 := by
  constructor <;> decide

/-- Claim C8, amended: `"I need to call John tomorrow"` yields exactly two
action items, both of type `action_item` with confidence 0.8: the first
(from the `need to` frame) with text `"call John tomorrow"`, the second
(from the `contact|call|email` frame) with text `"John tomorrow"`. -/
theorem claim8_action_items_exact (nowIso : Str) :
    extractActionItems nowIso ("I need to call John tomorrow").data =
      [ { text := ("call John tomorrow").data,
          full_context := ("need to call John tomorrow").data,
          confidence := mkRat 8 10, type := ("action_item").data,
          extracted_at := nowIso },
        { text := ("John tomorrow").data,
          full_context := ("call John tomorrow").data,
          confidence := mkRat 8 10, type := ("action_item").data,
          extracted_at := nowIso } ] := by
  rfl

/-! ## Claim C10 -/

/-- Lookup in an insertion-ordered counts dict. -/
def lookupCount (m : List (Str × Nat)) (k : Str) : Option Nat :=
  (m.find? fun p => p.1 = k).map (·.2)

/-- `dict.get(k, 0)`. -/
def lookupCountD (m : List (Str × Nat)) (k : Str) : Nat :=
  (lookupCount m k).getD 0

def sumCounts (m : List (Str × Nat)) : Nat := (m.map (·.2)).sum

theorem lookupCount_bump (m : List (Str × Nat)) (k k2 : Str) :
    lookupCountD (bumpCount k m) k2 =
      lookupCountD m k2 + (if k2 = k then 1 else 0) := by
  induction m with
  | nil =>
    by_cases h : k2 = k
    · subst h; simp [bumpCount, lookupCountD, lookupCount, List.find?]
    · simp [bumpCount, lookupCountD, lookupCount, List.find?, h, Ne.symm h]
  | cons p rest ih =>
    obtain ⟨pk, pv⟩ := p
    by_cases hk : pk = k
    · subst hk
      by_cases h2 : k2 = pk
      · subst h2
        simp [bumpCount, lookupCountD, lookupCount, List.find?]
      · simp [bumpCount, lookupCountD, lookupCount, List.find?, h2, Ne.symm h2]
    · by_cases h2 : k2 = pk
      · subst h2
        simp [bumpCount, if_neg hk, lookupCountD, lookupCount, List.find?, hk]
      · simp only [bumpCount, if_neg hk]
        unfold lookupCountD lookupCount
        rw [List.find?_cons_of_neg _ (by simp [Ne.symm h2]),
            List.find?_cons_of_neg _ (by simp [Ne.symm h2])]
        exact ih

theorem lookupCount_isSome_bump (m : List (Str × Nat)) (k k2 : Str) :
    (lookupCount (bumpCount k m) k2).isSome ↔
      k2 = k ∨ (lookupCount m k2).isSome := by
  induction m with
  | nil =>
    by_cases h : k2 = k
    · subst h; simp [bumpCount, lookupCount, List.find?]
    · simp [bumpCount, lookupCount, List.find?, h, Ne.symm h]
  | cons p rest ih =>
    obtain ⟨pk, pv⟩ := p
    by_cases hk : pk = k
    · subst hk
      by_cases h2 : k2 = pk
      · subst h2; simp [bumpCount, lookupCount, List.find?]
      · simp [bumpCount, lookupCount, List.find?, h2, Ne.symm h2]
    · by_cases h2 : k2 = pk
      · subst h2
        simp [bumpCount, if_neg hk, lookupCount, List.find?, hk]
      · simp only [bumpCount, if_neg hk]
        unfold lookupCount
        rw [List.find?_cons_of_neg _ (by simp [Ne.symm h2]),
            List.find?_cons_of_neg _ (by simp [Ne.symm h2])]
        exact ih

theorem sumCounts_bump (m : List (Str × Nat)) (k : Str) :
    sumCounts (bumpCount k m) = sumCounts m + 1 := by
  induction m with
  | nil => rfl
  | cons p rest ih =>
    obtain ⟨pk, pv⟩ := p
    by_cases hk : pk = k
    · subst hk; simp [bumpCount, sumCounts]; omega
    · simp only [bumpCount, if_neg hk]
      unfold sumCounts at *
      simp only [List.map_cons, List.sum_cons, ih]
      omega

theorem countFold_lookup (es : List ExtractedEntity) :
    ∀ m k, lookupCountD (es.foldl (fun acc e => bumpCount e.type acc) m) k =
      lookupCountD m k + (es.filter fun e => e.type = k).length := by
  induction es with
  | nil => intro m k; simp
  | cons e rest ih =>
    intro m k
    rw [List.foldl_cons, ih, lookupCount_bump]
    by_cases h : k = e.type
    · subst h
      rw [if_pos rfl, List.filter_cons_of_pos (by simp)]
      simp [Nat.add_comm, Nat.add_assoc, Nat.add_left_comm]
    · rw [if_neg h, List.filter_cons_of_neg (by simp; exact fun hc => h hc.symm)]
      omega

theorem countFold_isSome (es : List ExtractedEntity) :
    ∀ m k, (lookupCount (es.foldl (fun acc e => bumpCount e.type acc) m) k).isSome ↔
      (lookupCount m k).isSome ∨ ∃ e ∈ es, e.type = k := by
  induction es with
  | nil => intro m k; simp
  | cons e rest ih =>
    intro m k
    rw [List.foldl_cons, ih, lookupCount_isSome_bump]
    constructor
    · rintro ((h | h) | h)
      · exact Or.inr ⟨e, List.mem_cons_self e rest, h.symm⟩
      · exact Or.inl h
      · obtain ⟨f, hf, hfk⟩ := h
        exact Or.inr ⟨f, List.mem_cons_of_mem e hf, hfk⟩
    · rintro (h | ⟨f, hf, hfk⟩)
      · exact Or.inl (Or.inr h)
      · rcases List.mem_cons.mp hf with rfl | hf2
        · exact Or.inl (Or.inl hfk.symm)
        · exact Or.inr ⟨f, hf2, hfk⟩

theorem countFold_sum (es : List ExtractedEntity) :
    ∀ m, sumCounts (es.foldl (fun acc e => bumpCount e.type acc) m) =
      sumCounts m + es.length := by
  induction es with
  | nil => intro m; simp
  | cons e rest ih =>
    intro m
    rw [List.foldl_cons, ih, sumCounts_bump]
    simp [Nat.add_comm, Nat.add_assoc, Nat.add_left_comm]

/-- Claim C10: on every successful non-blank call, `entity_counts` assigns
to each type exactly the number of entities of that type in the returned
list, its keys are exactly the occurring types, and its values sum to the
list's length. -/
theorem claim10_entity_counts_exact (caps : Caps) (t : Str) (ic : Bool)
    (r : EEResult) (m : List (Str × Nat)) (hne : pyStrip t ≠ [])
    (hok : extractEntities caps t ic = .ok r)
    (hm : r.entity_counts = some m) :
    (∀ ty, lookupCountD m ty = (r.entities.filter fun e => e.type = ty).length) ∧
    (∀ ty, (lookupCount m ty).isSome ↔ ∃ e ∈ r.entities, e.type = ty) ∧
    sumCounts m = r.entities.length := by
  have hcounts := (extractEntities_ok_entities caps t ic r hne hok).2
  rw [hm] at hcounts
  have hmc : m = countEntities r.entities := by
    injection hcounts
  subst hmc
  unfold countEntities
  refine ⟨fun ty => ?_, fun ty => ?_, ?_⟩
  · rw [countFold_lookup]
    simp [lookupCountD, lookupCount]
  · rw [countFold_isSome]
    simp [lookupCount]
  · rw [countFold_sum]
    simp [sumCounts]

/-- Witness for C10 on the text `"noon"` (one TIME entity). -/
theorem claim10_entity_counts_exact_witness :
    lookupCountD [(("TIME").data, 1)] (("TIME").data) =
      ((entitiesOf (extractEntities exCaps ("noon").data false)).filter
          fun e => e.type = ("TIME").data).length ∧
    sumCounts [(("TIME").data, 1)] =
      (entitiesOf (extractEntities exCaps ("noon").data false)).length := by
  have h := claim10_entity_counts_exact exCaps (("noon").data) false
    { entities := extractTimes ("noon").data,
      entity_counts := some (countEntities (extractTimes ("noon").data)),
      text_length := some 4, word_count := some 1, calendar_events := none }
    [(("TIME").data, 1)] (by decide) (by decide) (by decide)
  exact ⟨by rw [h.1]; decide, by rw [h.2.2]; decide⟩

/-! ## Claim C7 -/

/-- Helper for `merge2`: merge `a :: l` (with `f = merge2 l`) into the
second list. -/
def merge2Cons (a : NerEnt) (f : List NerEnt → List NerEnt) :
    List NerEnt → List NerEnt
  | [] => a :: f []
  | b :: m => if startLE a b then a :: f (b :: m) else b :: merge2Cons a f m

/-- Stable merge of two lists by ascending start, preferring the first list
on ties: the result of stably sorting `l₁ ++ l₂` when both are sorted. -/
def merge2 : List NerEnt → List NerEnt → List NerEnt
  | [], m => m
  | a :: l, m => merge2Cons a (merge2 l) m

/-- Each element doubled in place. -/
def dupEach : List NerEnt → List NerEnt
  | [] => []
  | x :: xs => x :: x :: dupEach xs

theorem merge2_nil_right : ∀ l : List NerEnt, merge2 l [] = l
  | [] => rfl
  | a :: l => by
    show a :: merge2 l [] = a :: l
    rw [merge2_nil_right l]

theorem merge2_cons_cons (a b : NerEnt) (l m : List NerEnt) :
    merge2 (a :: l) (b :: m) =
      if startLE a b then a :: merge2 l (b :: m) else b :: merge2 (a :: l) m := rfl

theorem orderedInsert_single (x : NerEnt) :
    ∀ M : List NerEnt, List.orderedInsert startLE x M = merge2 [x] M := by
  intro M
  induction M with
  | nil => rfl
  | cons m M' ih =>
    show (if startLE x m then x :: m :: M' else m :: List.orderedInsert startLE x M') =
      if startLE x m then x :: merge2 [] (m :: M') else m :: merge2 [x] M'
    by_cases h : startLE x m
    · rw [if_pos h, if_pos h]
      rfl
    · rw [if_neg h, if_neg h, ih]

theorem orderedInsert_le_head (x : NerEnt) (xs : List NerEnt)
    (h : ∀ y ∈ xs, startLE x y) :
    List.orderedInsert startLE x xs = x :: xs := by
  cases xs with
  | nil => rfl
  | cons y ys =>
    show (if startLE x y then x :: y :: ys else y :: List.orderedInsert startLE x ys) =
      x :: y :: ys
    rw [if_pos (h y (List.mem_cons_self y ys))]

theorem orderedInsert_merge2 :
    ∀ M : List NerEnt, List.Sorted startLE M →
      ∀ (x : NerEnt) (xs : List NerEnt), (∀ y ∈ xs, startLE x y) →
        List.orderedInsert startLE x (merge2 xs M) = merge2 (x :: xs) M := by
  intro M
  induction M with
  | nil =>
    intro _ x xs hxs
    rw [merge2_nil_right, merge2_nil_right]
    exact orderedInsert_le_head x xs hxs
  | cons m M' ih =>
    intro hM x xs hxs
    have hM' : List.Sorted startLE M' := hM.tail
    cases xs with
    | nil =>
      show List.orderedInsert startLE x (m :: M') = merge2 [x] (m :: M')
      exact orderedInsert_single x (m :: M')
    | cons y ys =>
      have hxy : startLE x y := hxs y (List.mem_cons_self y ys)
      by_cases hym : startLE y m
      · rw [merge2_cons_cons y m ys M', if_pos hym]
        rw [show List.orderedInsert startLE x (y :: merge2 ys (m :: M')) =
            x :: y :: merge2 ys (m :: M') by
          show (if startLE x y then _ else _) = _
          rw [if_pos hxy]]
        rw [merge2_cons_cons x m (y :: ys) M',
            if_pos (show startLE x m from Nat.le_trans hxy hym),
            merge2_cons_cons y m ys M', if_pos hym]
      · rw [merge2_cons_cons y m ys M', if_neg hym]
        by_cases hxm : startLE x m
        · rw [show List.orderedInsert startLE x (m :: merge2 (y :: ys) M') =
              x :: m :: merge2 (y :: ys) M' by
            show (if startLE x m then _ else _) = _
            rw [if_pos hxm]]
          rw [merge2_cons_cons x m (y :: ys) M', if_pos hxm,
              merge2_cons_cons y m ys M', if_neg hym]
        · rw [show List.orderedInsert startLE x (m :: merge2 (y :: ys) M') =
              m :: List.orderedInsert startLE x (merge2 (y :: ys) M') by
            show (if startLE x m then _ else _) = _
            rw [if_neg hxm]]
          rw [ih hM' x (y :: ys) hxs,
              merge2_cons_cons x m (y :: ys) M', if_neg hxm]

theorem foldr_orderedInsert_merge2 :
    ∀ (xs : List NerEnt), List.Sorted startLE xs →
      ∀ M : List NerEnt, List.Sorted startLE M →
        List.foldr (List.orderedInsert startLE) M xs = merge2 xs M := by
  intro xs
  induction xs with
  | nil => intro _ M _; rfl
  | cons x xs' ih =>
    intro hxs M hM
    have hhead : ∀ y ∈ xs', startLE x y :=
      fun y hy => List.rel_of_pairwise_cons hxs hy
    rw [List.foldr_cons, ih hxs.tail M hM, orderedInsert_merge2 M hM x xs' hhead]

theorem insertionSort_eq_foldr (l : List NerEnt) :
    l.insertionSort startLE = List.foldr (List.orderedInsert startLE) [] l := by
  induction l with
  | nil => rfl
  | cons x xs ih => rw [List.insertionSort, ih, List.foldr_cons]

theorem merge2_self :
    ∀ L : List NerEnt, L.Pairwise (fun a b => a.start < b.start) →
      merge2 L L = dupEach L := by
  intro L
  induction L with
  | nil => intro _; rfl
  | cons x xs ih =>
    intro h
    obtain ⟨hx, htail⟩ := List.pairwise_cons.mp h
    show merge2 (x :: xs) (x :: xs) = x :: x :: dupEach xs
    rw [merge2_cons_cons x x xs xs, if_pos (show startLE x x from Nat.le_refl _)]
    cases xs with
    | nil => rfl
    | cons y ys =>
      rw [merge2_cons_cons y x ys (y :: ys),
          if_neg (show ¬startLE y x by
            have := hx y (List.mem_cons_self y ys)
            unfold startLE
            omega)]
      rw [ih htail]

theorem mergeWalk_cons (e : NerEnt) (rest merged : List NerEnt)
    (seen : List (Nat × Nat)) :
    mergeWalk (e :: rest) merged seen =
      if (seen.any fun sp => spansOverlap (nerSpan e) sp) = true then
        mergeWalk rest merged seen
      else mergeWalk rest (merged ++ [e]) (seen ++ [nerSpan e]) := rfl

theorem mergeWalk_dupEach :
    ∀ L : List NerEnt, L.Pairwise (fun a b => a.stop ≤ b.start) →
      (∀ e ∈ L, e.start < e.stop) →
      ∀ (acc : List NerEnt) (seen : List (Nat × Nat)),
        (∀ sp ∈ seen, ∀ e ∈ L, spansOverlap (nerSpan e) sp = false) →
        mergeWalk (dupEach L) acc seen = acc ++ L := by
  intro L
  induction L with
  | nil => intro _ _ acc seen _; simp [dupEach, mergeWalk]
  | cons x xs ih =>
    intro hsep hne acc seen hseen
    obtain ⟨hxsep, hsep'⟩ := List.pairwise_cons.mp hsep
    show mergeWalk (x :: x :: dupEach xs) acc seen = acc ++ (x :: xs)
    have hnox : (seen.any fun sp => spansOverlap (nerSpan x) sp) = false := by
      rw [List.any_eq_false]
      intro sp hsp hc
      rw [hseen sp hsp x (List.mem_cons_self x xs)] at hc
      cases hc
    rw [show mergeWalk (x :: x :: dupEach xs) acc seen =
        mergeWalk (x :: dupEach xs) (acc ++ [x]) (seen ++ [nerSpan x]) by
      rw [mergeWalk_cons x (x :: dupEach xs) acc seen,
          if_neg (by rw [hnox]; intro hc; cases hc)]]
    have hself : spansOverlap (nerSpan x) (nerSpan x) = true := by
      have := hne x (List.mem_cons_self x xs)
      unfold spansOverlap nerSpan
      simp only [Bool.and_eq_true, decide_eq_true_eq]
      omega
    rw [show mergeWalk (x :: dupEach xs) (acc ++ [x]) (seen ++ [nerSpan x]) =
        mergeWalk (dupEach xs) (acc ++ [x]) (seen ++ [nerSpan x]) by
      rw [mergeWalk_cons x (dupEach xs) (acc ++ [x]) (seen ++ [nerSpan x]),
          if_pos (by
            rw [List.any_append]
            apply Bool.or_eq_true_iff.mpr
            right
            simp [List.any_cons, hself])]]
    have hseen' : ∀ sp ∈ seen ++ [nerSpan x], ∀ e ∈ xs,
        spansOverlap (nerSpan e) sp = false := by
      intro sp hsp e hexs
      rcases List.mem_append.mp hsp with hold | hnew
      · exact hseen sp hold e (List.mem_cons_of_mem x hexs)
      · have hx2 : sp = nerSpan x := by simpa using hnew
        subst hx2
        have hle := hxsep e hexs
        unfold spansOverlap nerSpan
        simp only [Bool.and_eq_false_iff]
        left
        simp only [decide_eq_false_iff_not]
        omega
    rw [ih hsep' (fun e he => hne e (List.mem_cons_of_mem x he))
        (acc ++ [x]) (seen ++ [nerSpan x]) hseen']
    simp

/-- Claim C7: the Merger is idempotent on its own output — for every
already-merged list `L` (sorted by ascending start, pairwise
non-overlapping) whose spans are non-empty, `_merge_entities(L, L) = L`. -/
theorem claim7_merger_idempotent (L : List NerEnt)
    (hsort : List.Sorted startLE L)
    (hno : L.Pairwise fun a b => spansOverlap (nerSpan a) (nerSpan b) = false)
    (hne : ∀ e ∈ L, e.start < e.stop) :
    mergeEntities L L = L := by
  have hsep : L.Pairwise (fun a b => a.stop ≤ b.start) := by
    refine (hsort.and hno).imp_of_mem ?_
    intro a b ha hb hab
    obtain ⟨hle, hov⟩ := hab
    have ha' := hne a ha
    have hb' := hne b hb
    unfold spansOverlap nerSpan at hov
    simp only [Bool.and_eq_false_iff, decide_eq_false_iff_not] at hov
    unfold startLE at hle
    omega
  have hlt : L.Pairwise (fun a b => a.start < b.start) := by
    refine hsep.imp_of_mem ?_
    intro a b ha hb hab
    have ha' := hne a ha
    omega
  have hsorted : sortByStart (L ++ L) = merge2 L L := by
    unfold sortByStart
    rw [insertionSort_eq_foldr, List.foldr_append, ← insertionSort_eq_foldr,
        hsort.insertionSort_eq]
    exact foldr_orderedInsert_merge2 L hsort L hsort
  unfold mergeEntities
  rw [hsorted, merge2_self L hlt]
  have h := mergeWalk_dupEach L hsep hne [] [] (by intro sp hsp; cases hsp)
  simpa using h

/-- Witness for C7: a concrete sorted, non-overlapping, non-empty-span
list. -/
theorem claim7_merger_idempotent_witness :
    mergeEntities [exPersonNer, { exDateNer with start := 6, stop := 9 }]
        [exPersonNer, { exDateNer with start := 6, stop := 9 }] =
      [exPersonNer, { exDateNer with start := 6, stop := 9 }] :=
  claim7_merger_idempotent _ (by decide) (by decide) (by decide)
